import Mathlib

/-!
Verification development for the dynamodb-utils library (src/index.js).

The file shallowly embeds the three cores of the library — the attribute
encoder (createAttribute, object2Map), the size accounting engine
(getObjectSize and its helpers, itemSizeCount) and the path addressing
scheme (getPropertyPaths, toStringPath, toArrayPath, hasPropertyAtPath,
getAttributeAtPath) — and proves theorems that settle the specification
claims about them.

Modelling conventions:
* JavaScript values are modelled by the inductive type JVal.  A number is
  carried as its decimal string form, the result of JavaScript
  Number.prototype.toString; the claims only involve finite numbers, so
  jnum models a finite number.
* JavaScript exceptions are modelled with Except String; a returned
  Except.error corresponds to a thrown TypeError.
* The undefined value returned by some functions is modelled as none, and
  the false sentinel of getAttributeAtPath is modelled as none as well
  (the attribute trees the claims look at never store a bare boolean
  false, so no ambiguity arises).
* Field-name lengths use the Lean String length (the number of scalar
  values); the claims only involve plain ASCII names, where this agrees
  with the JavaScript code-unit length.
-/

/-- Model of a JavaScript value as stored in the nested records, attribute
trees and path indexes handled by the library. -/
inductive JVal : Type where
| jstr (s : String)
| jnum (s : String)
| jbool (b : Bool)
| jnull
| jarr (l : List JVal)
| jobj (l : List (String × JVal))

/-- Whitespace test used by JavaScript String.prototype.trim (space, tab,
line feed, vertical tab, form feed, carriage return, no-break space). -/
def isJsSpace (c : Char) : Bool :=
  c == ' ' || c == '\t' || c == '\n' || c == '\r' ||
    c.toNat == 11 || c.toNat == 12 || c.toNat == 160

/-- Model of JavaScript String.prototype.trim: drop leading and trailing
whitespace. -/
def jsTrim (s : String) : String :=
  String.mk (((s.data.dropWhile isJsSpace).reverse.dropWhile isJsSpace).reverse)

/-- Split a character list at every occurrence of the character c,
mirroring JavaScript String.prototype.split with a one-character
delimiter. -/
def splitChars (c : Char) : List Char → List (List Char)
| [] => [[]]
| x :: xs =>
  if x = c then [] :: splitChars c xs
  else
    match splitChars c xs with
    | [] => [[x]]
    | h :: t => (x :: h) :: t

/-- Model of JavaScript s.split(".") (the default delimiter of the path
functions). -/
def jsSplitDot (s : String) : List String := (splitChars '.' s.data).map String.mk

/-- Model of byteCount (src/index.js line 70): the encodeURIComponent
round trip counts the UTF-8 encoded length of the string. -/
def byteCount (s : String) : Nat := s.utf8ByteSize

/-- Decimal digit character for a digit below ten, as JavaScript
number-to-string conversion produces. -/
def decDigit (d : Nat) : Char :=
  match d with
  | 0 => '0' | 1 => '1' | 2 => '2' | 3 => '3' | 4 => '4'
  | 5 => '5' | 6 => '6' | 7 => '7' | 8 => '8' | 9 => '9'
  | _ => '0'

/-- Decimal digit characters of a natural number, most significant digit
first: the characters of JavaScript n.toString() for a natural n. -/
def decChars (n : Nat) : List Char :=
  if _h : n < 10 then [decDigit n]
  else decChars (n / 10) ++ [decDigit (n % 10)]
termination_by n
decreasing_by exact Nat.div_lt_self (by omega) (by omega)

/-- Decimal string of a natural number: JavaScript i.toString(), used for
array indexes throughout the library. -/
def decStr (n : Nat) : String := String.mk (decChars n)

/-- Numeric value of a digit character list, used to invert decChars. -/
def decVal (l : List Char) : Nat := l.foldl (fun a c => 10 * a + (c.toNat - 48)) 0

/-- Test for a decimal digit character. -/
def isDigitCh (c : Char) : Bool := 48 ≤ c.toNat && c.toNat ≤ 57

/-- Model of the JavaScript numeric interpretation of a string, restricted
to the nonnegative integer numerals that occur as array-index path
tokens (the empty string converts to zero, as in JavaScript). -/
def jsNumOpt (s : String) : Option Nat :=
  if s.data.all isDigitCh then some (decVal s.data) else none

/-- Canonical array-index test: a string is an own index property of a
JavaScript array of length len exactly when it is the canonical decimal
form of some index below len. -/
def arrIndexOf (k : String) (len : Nat) : Option Nat :=
  match jsNumOpt k with
  | some i => if decStr i = k ∧ i < len then some i else none
  | none => none

/-- First value stored under the key k in an association list, mirroring
property lookup on a JavaScript object. -/
def findVal (k : String) : List (String × JVal) → Option JVal
| [] => none
| (k2, v) :: r => if k2 = k then some v else findVal k r

/-- Model of isObject (src/index.js line 370): true for plain objects and
arrays, false for null and for every primitive. -/
def isObjectJ : JVal → Bool
| .jobj _ => true
| .jarr _ => true
| _ => false

/-- Model of isArray (src/index.js line 379). -/
def isArrayJ : JVal → Bool
| .jarr _ => true
| _ => false

/-- Test for the null value. -/
def isNullJ : JVal → Bool
| .jnull => true
| _ => false

/-- Canonical NULL attribute, the value of createAttribute(null). -/
def nullAttr : JVal := .jobj [("NULL", .jbool true)]

mutual
/-- Model of createAttribute (src/index.js lines 274-318).  A trimmed
nonempty string becomes S, a finite number becomes N carrying its decimal
string, a boolean becomes BOOL, an array becomes L of the recursively
encoded elements (unconditionally, also when empty), an object goes
through object2Map, and everything that leaves the property set empty
(null, empty or whitespace-only strings) falls back to the NULL
attribute. -/
def createAttribute : JVal → JVal
| .jstr s => if 0 < (jsTrim s).length then .jobj [("S", .jstr (jsTrim s))] else nullAttr
| .jnum s => .jobj [("N", .jstr s)]
| .jbool b => .jobj [("BOOL", .jbool b)]
| .jnull => nullAttr
| .jarr es => .jobj [("L", .jarr (mapCA es))]
| .jobj l => object2Map l

/-- Recursive encoding of the elements of an array, in order. -/
def mapCA : List JVal → List JVal
| [] => []
| p :: ps => createAttribute p :: mapCA ps

/-- Model of object2Map (src/index.js lines 325-345): encode every entry
value (createAttribute is total, so every key is kept), wrap a nonempty
result in an M attribute, and fall back to the NULL attribute for an
object with no keys. -/
def object2Map : List (String × JVal) → JVal
| l => if 0 < (mapAttr l).length then .jobj [("M", .jobj (mapAttr l))] else nullAttr

/-- Recursive encoding of the entries of an object, keys kept in order. -/
def mapAttr : List (String × JVal) → List (String × JVal)
| [] => []
| (k, v) :: r => (k, createAttribute v) :: mapAttr r
end

/-- Model of stringSizeCount (src/index.js line 187). -/
def stringSizeCount (name : String) (s : String) : Nat := name.length + byteCount s

/-- Model of nullBoolSizeCount (src/index.js line 226): one byte beyond
the name for null or a boolean, zero for anything else. -/
def nullBoolSizeCount (name : String) (nb : JVal) : Nat :=
  match nb with
  | .jnull => name.length + 1
  | .jbool _ => name.length + 1
  | _ => 0

/-- Test for a decimal point in the string form of a number, mirroring
n.toString().includes(".") in numberSizeCount. -/
def hasDot (n : String) : Bool := n.data.any (fun c => c == '.')

/-- Fractional part of the string form of a number: the piece after the
first decimal point, n.toString().split(".")[1]. -/
def fracPart (n : String) : String := ((jsSplitDot n).get? 1).getD ""

/-- Model of the fractional-digit loop of numberSizeCount (src/index.js
lines 202-205): for (i = 0; i <= fpartLength; i += 2) size += 2. -/
def fracLoop (fpartLength : Nat) (i : Nat) : Nat :=
  if i ≤ fpartLength then 2 + fracLoop fpartLength (i + 2) else 0
termination_by fpartLength + 1 - i
decreasing_by omega

/-- Model of numberSizeCount (src/index.js lines 197-208); the number
argument is carried as its decimal string form. -/
def numberSizeCount (name : String) (n : String) : Nat :=
  if hasDot n then name.length + 1 + fracLoop (fracPart n).length 0
  else name.length + 1

/-- Model of the call getObjectSize(e) inside arraySizeCount (src/index.js
line 176): the element is passed as the name parameter and the value
parameter is undefined, so no case of the typeof switch matches and the
size stays zero. -/
def getObjectSizeElem (_ : JVal) : Nat := 0

/-- Model of arraySizeCount (src/index.js lines 173-179). -/
def arraySizeCount (name : String) (a : List JVal) : Nat :=
  a.foldl (fun size e => size + (3 + getObjectSizeElem e)) (name.length + 3)

mutual
/-- Model of getObjectSize (src/index.js lines 94-129), the typeof switch
that dispatches to the per-type size helpers; jnum models a finite number,
so the isFinite guard always passes. -/
def getObjectSize (name : String) (o : JVal) : Nat :=
  match o with
  | .jstr s => stringSizeCount name s
  | .jnum s => numberSizeCount name s
  | .jbool _ => nullBoolSizeCount name o
  | .jnull => nullBoolSizeCount name o
  | .jarr a => arraySizeCount name a
  | .jobj l => objectSizeCount name l

/-- Model of objectSizeCount (src/index.js lines 158-165). -/
def objectSizeCount (name : String) (o : List (String × JVal)) : Nat :=
  name.length + 3 + objectEntriesSize o

/-- Per-entry sum of objectSizeCount: three bytes plus the recursive size
for every key. -/
def objectEntriesSize : List (String × JVal) → Nat
| [] => 0
| (k, v) :: rest => (3 + getObjectSize k v) + objectEntriesSize rest
end

/-- Sum of getObjectSize over the top-level entries of an object, the
accumulation performed by itemSizeCount. -/
def sumSizes : List (String × JVal) → Nat
| [] => 0
| (k, v) :: r => getObjectSize k v + sumSizes r

/-- Sum of getObjectSize over the index keys of an array, the accumulation
itemSizeCount performs when handed an array (arrays are instanceof Object
and Object.keys lists their index strings). -/
def sumSizesArr (i : Nat) : List JVal → Nat
| [] => 0
| e :: r => getObjectSize (decStr i) e + sumSizesArr (i + 1) r

/-- Model of toKilobyte (src/index.js line 90) on a byte count n:
(n / 1024).toFixed(2) * 1.  toFixed(2) rounds half up to two decimals, so
the value is floor((25 n + 128) / 256) hundredths. -/
def toKilobyte (n : Nat) : ℚ := (((25 * n + 128) / 256 : Nat) : ℚ) / 100

/-- Model of itemSizeCount (src/index.js lines 138-150): for an object
(or an array, which is also instanceof Object) with at least one key, sum
getObjectSize over the keys, convert to kilobytes and take Math.ceil;
otherwise return undefined. -/
def itemSizeCount : JVal → Option ℤ
| .jobj l => if 0 < l.length then some ⌈toKilobyte (sumSizes l)⌉ else none
| .jarr l => if 0 < l.length then some ⌈toKilobyte (sumSizesArr 0 l)⌉ else none
| _ => none

/-- Specification-side rounding of a nonnegative quantity to two decimal
places, ties rounded up, as JavaScript toFixed(2) behaves on the
nonnegative values that arise here. -/
def round2 (q : ℚ) : ℚ := (⌊q * 100 + 1 / 2⌋₊ : ℕ) / 100

/-! ## Claim C1: emptiness collapse of the encoder -/

/-- Evaluation helper: encoding the singleton list holding null. -/
theorem createAttribute_singleton_null :
    createAttribute (.jarr [.jnull]) =
      .jobj [("L", .jarr [.jobj [("NULL", .jbool true)]])] := by
  simp [createAttribute, mapCA, nullAttr]

/-- C1 counterexample: the encoder does not collapse the empty list to the
NULL attribute; createAttribute([]) is the L attribute with no elements. -/
theorem C1_counterexample :
    createAttribute (.jarr []) ≠ .jobj [("NULL", .jbool true)] := by
  simp [createAttribute, mapCA]

/-- C1 (amended): createAttribute maps the empty string, a whitespace-only
string and the empty map to the canonical NULL attribute, maps the empty
list to the L attribute with no elements (an empty list does not
collapse), and maps [null] to an L holding one NULL attribute. -/
theorem C1_amended :
    createAttribute (.jstr "") = .jobj [("NULL", .jbool true)] ∧
    createAttribute (.jstr "   ") = .jobj [("NULL", .jbool true)] ∧
    createAttribute (.jobj []) = .jobj [("NULL", .jbool true)] ∧
    createAttribute (.jarr []) = .jobj [("L", .jarr [])] ∧
    createAttribute (.jarr [.jnull]) =
      .jobj [("L", .jarr [.jobj [("NULL", .jbool true)]])] := by
  refine ⟨?_, ?_, ?_, ?_, ?_⟩
  · simp [createAttribute, jsTrim, nullAttr]
  · simp [createAttribute, jsTrim, isJsSpace, nullAttr]
  · simp [createAttribute, object2Map, mapAttr, nullAttr]
  · simp [createAttribute, mapCA]
  · exact createAttribute_singleton_null

/-! ## Claim C2: list sizes -/

/-- Fold evaluation for arraySizeCount: every element adds exactly three
bytes, because the recursive size call receives the element as the name
and no value. -/
theorem arraySizeCount_closed (name : String) (a : List JVal) :
    arraySizeCount name a = name.length + 3 + 3 * a.length := by
  suffices h : ∀ (init : Nat),
      a.foldl (fun size e => size + (3 + getObjectSizeElem e)) init =
        init + 3 * a.length by
    simpa [arraySizeCount] using h (name.length + 3)
  induction a with
  | nil => intro init; simp
  | cons e rest ih =>
    intro init
    rw [List.foldl_cons, ih, getObjectSizeElem, List.length_cons]
    omega

/-- C2 code evaluation: the size of the field a holding the list
containing the single string xyz is 7, not the 10 the claim computes,
because each element contributes 3 + 0. -/
theorem C2_code_eval : arraySizeCount "a" [.jstr "xyz"] = 7 := by
  rw [arraySizeCount_closed]
  decide

/-! ## Claim C3: number sizes -/

/-- Closed form of the fractional-digit loop: the loop body runs once for
i = 0 and once more for every full pair of fractional digits, so it adds
two bytes per started pair plus two extra bytes. -/
theorem fracLoop_closed (L : Nat) :
    ∀ n i, L + 1 - i ≤ n →
      fracLoop L i = if i ≤ L then 2 * ((L - i) / 2 + 1) else 0 := by
  intro n
  induction n with
  | zero =>
    intro i hn
    have hi : ¬ i ≤ L := by omega
    rw [fracLoop]
    simp [hi]
  | succ n ih =>
    intro i hn
    rw [fracLoop]
    by_cases hi : i ≤ L
    · rw [if_pos hi, if_pos hi, ih (i + 2) (by omega)]
      by_cases hi2 : i + 2 ≤ L
      · rw [if_pos hi2]
        omega
      · rw [if_neg hi2]
        omega
    · rw [if_neg hi, if_neg hi]

/-- Shared evaluation: the source computes 8 for the number 1.2345 under
the field name n (base 2 plus three loop iterations of the four-digit
fractional part). -/
theorem numberSizeCount_example : numberSizeCount "n" "1.2345" = 8 := by
  have h4 : (fracPart "1.2345").length = 4 := by decide
  have hdot : hasDot "1.2345" = true := by decide
  rw [numberSizeCount, hdot, if_pos rfl, h4,
    fracLoop_closed 4 5 0 (by omega)]
  decide

/-- C3 counterexample: the claim computes 1 + 1 + 4 = 6 for
numberSizeCount("n", 1.2345), but the loop bound i <= fpartLength makes
the source return 8. -/
theorem C3_counterexample : numberSizeCount "n" "1.2345" ≠ 6 := by
  rw [numberSizeCount_example]
  omega

/-- C3 (amended): for every field name and every decimal number string,
numberSizeCount adds to name length + 1 two bytes for each started pair
of fractional digits plus one extra pair (the loop runs floor(L / 2) + 1
times); an integer string adds nothing.  In particular the value for
1.2345 under the one-letter name n is 8, not 6. -/
theorem C3_amended :
    (∀ (name : String) (n : String),
      numberSizeCount name n =
        name.length + 1 +
          (if hasDot n then 2 * ((fracPart n).length / 2 + 1) else 0)) ∧
    numberSizeCount "n" "1.2345" = 8 := by
  refine ⟨?_, numberSizeCount_example⟩
  intro name n
  rw [numberSizeCount]
  by_cases hd : hasDot n
  · rw [if_pos hd, if_pos hd,
      fracLoop_closed (fracPart n).length ((fracPart n).length + 1) 0 (by omega)]
    simp
  · simp [hd]

/-! ## Claim C4: whole-record billing size -/

/-- Agreement of the embedded toKilobyte with the specification-side
rounding: converting a byte count to kilobytes with two-decimal
half-up rounding. -/
theorem toKilobyte_eq_round2 (n : Nat) :
    toKilobyte n = round2 ((n : ℚ) / 1024) := by
  rw [toKilobyte, round2]
  have h1 : ((n : ℚ) / 1024) * 100 + 1 / 2 =
      ((200 * n + 1024 : ℕ) : ℚ) / ((2048 : ℕ) : ℚ) := by
    push_cast
    ring
  rw [h1, Nat.floor_div_eq_div]
  have h2 : (200 * n + 1024) / 2048 = (25 * n + 128) / 256 := by omega
  rw [h2]

/-- Evaluation of the kilobyte ceiling at a raw total of 1536 bytes. -/
theorem ceil_toKilobyte_1536 : ⌈toKilobyte 1536⌉ = 2 := by
  have h : toKilobyte 1536 = (150 : ℚ) / 100 := by
    rw [toKilobyte]
    norm_num
  rw [h, show ((150 : ℚ) / 100) = 3 / 2 by norm_num, Int.ceil_eq_iff]
  constructor <;> norm_num

/-- C4: for every nonempty record, itemSizeCount is the ceiling of the
two-decimal-rounded kilobyte conversion of the raw byte total summed by
getObjectSize over the top-level keys; in particular a raw total of 1536
bytes bills as 2 kilobytes. -/
theorem C4_itemSizeCount (l : List (String × JVal)) (hl : l ≠ []) :
    itemSizeCount (.jobj l) = some ⌈round2 ((sumSizes l : ℚ) / 1024)⌉ ∧
    (sumSizes l = 1536 → itemSizeCount (.jobj l) = some 2) := by
  have hlen : 0 < l.length := List.length_pos.mpr hl
  constructor
  · simp [itemSizeCount, hlen, toKilobyte_eq_round2]
  · intro hs
    simp [itemSizeCount, hlen, hs, ceil_toKilobyte_1536]

/-- C4 witness: a record holding one null field whose name is 1535
characters long has raw size 1536 and bills as 2 kilobytes. -/
theorem C4_witness :
    itemSizeCount (.jobj [(String.mk (List.replicate 1535 'a'), .jnull)]) =
      some 2 := by
  have hsum : sumSizes [(String.mk (List.replicate 1535 'a'), JVal.jnull)] = 1536 := by
    simp only [sumSizes, getObjectSize, nullBoolSizeCount, String.length_mk,
      List.length_replicate]
  exact (C4_itemSizeCount _ (by simp)).2 hsum

/-! ## Claim C9: undefined result for empty or non-mapping input -/

/-- Inputs for which no size can be computed: a mapping with zero keys or
a value that is not a mapping at all (arrays are instanceof Object in the
source, so an array with zero keys falls in the same bucket). -/
def isNonMappingOrEmpty : JVal → Prop
| .jobj l => l = []
| .jarr l => l = []
| _ => True

/-- C9: itemSizeCount returns undefined, never a numeric zero, for every
empty mapping and every input that is not a mapping. -/
theorem C9_undefined (v : JVal) (h : isNonMappingOrEmpty v) :
    itemSizeCount v = none := by
  cases v with
  | jobj l =>
    have hl : l = [] := h
    subst hl
    simp [itemSizeCount]
  | jarr l =>
    have hl : l = [] := h
    subst hl
    simp [itemSizeCount]
  | jstr s => simp [itemSizeCount]
  | jnum s => simp [itemSizeCount]
  | jbool b => simp [itemSizeCount]
  | jnull => simp [itemSizeCount]

/-- C9 witness: the empty record and a bare number both yield undefined. -/
theorem C9_witness :
    isNonMappingOrEmpty (.jobj []) ∧ itemSizeCount (.jobj []) = none ∧
      itemSizeCount (.jnum "42") = none :=
  ⟨rfl, C9_undefined (.jobj []) rfl, C9_undefined (.jnum "42") trivial⟩

/-! ## Claim C10: numeric zero for tiny records -/

/-- C10: a nonempty record whose raw summed size is at most five bytes
gets the numeric size zero (not undefined) from itemSizeCount, because
25 n + 128 stays below 256 and the two-decimal kilobyte figure is 0.00. -/
theorem C10_small_records (l : List (String × JVal)) (h1 : l ≠ [])
    (h2 : sumSizes l ≤ 5) : itemSizeCount (.jobj l) = some 0 := by
  have hlen : 0 < l.length := List.length_pos.mpr h1
  have hz : (25 * sumSizes l + 128) / 256 = 0 := Nat.div_eq_of_lt (by omega)
  simp [itemSizeCount, hlen, toKilobyte, hz]

/-- C10 witness: the record holding the single empty-string field a has
raw size 1 and itemSizeCount 0. -/
theorem C10_witness :
    [("a", JVal.jstr "")] ≠ [] ∧ sumSizes [("a", JVal.jstr "")] ≤ 5 ∧
      itemSizeCount (.jobj [("a", JVal.jstr "")]) = some 0 := by
  have h2 : sumSizes [("a", JVal.jstr "")] ≤ 5 := by
    simp only [sumSizes, getObjectSize, stringSizeCount, byteCount]
    decide
  exact ⟨by simp, h2, C10_small_records _ (by simp) h2⟩

/-! ## Path index builder (getPropertyPaths) -/

/-- Lookup of the property named 1 on a value, the p[1] test of
getPropertyPaths (src/index.js line 465): entry 1 of an array, key 1 of
an object; a character of a string is never an object, so the other cases
give none. -/
def getProp1 : JVal → Option JVal
| .jobj l => findVal "1" l
| .jarr l => l.get? 1
| _ => none

/-- Object test on an optional value, false for an absent property. -/
def optIsObject : Option JVal → Bool
| some v => isObjectJ v
| none => false

mutual
/-- Sub-index (the pathsArray) that getPropertyPaths builds for one value
(src/index.js lines 456-476).  For an array, each element at index i
contributes the one-key step object built from the recursive call on the
pair (i.toString(), element); for an object, each entry contributes the
one-key step from the recursive call on that entry; scalars contribute an
empty step list.  When an array element has an object or an array stored
under its property 1, the source first replaces the element by its own
paths object and recurses on that re-encoded output; that recursion is
not structurally bounded and does not terminate on some inputs (for the
record holding the single key a with value [[0, {}]] it recurses
forever), so entering that branch is modelled as none. -/
def paF : JVal → Option (List JVal)
| .jarr es => paFArr 0 es
| .jobj sub => paFObj sub
| _ => some []

/-- Array part of paF, carrying the running element index. -/
def paFArr : Nat → List JVal → Option (List JVal)
| _, [] => some []
| i, p :: ps =>
  if optIsObject (getProp1 p) then none
  else
    match paF p, paFArr (i + 1) ps with
    | some s, some r => some (.jobj [(decStr i, .jarr s)] :: r)
    | _, _ => none

/-- Object part of paF: one one-key step per entry, keys kept in order. -/
def paFObj : List (String × JVal) → Option (List JVal)
| [] => some []
| (k, v) :: rest =>
  match paF v, paFObj rest with
  | some s, some r => some (.jobj [(k, .jarr s)] :: r)
  | _, _ => none
end

/-- Top level of getPropertyPaths on the entries of a record: each
top-level key is mapped to its step array. -/
def gppEntries : List (String × JVal) → Option (List (String × JVal))
| [] => some []
| (k, v) :: rest =>
  match paF v, gppEntries rest with
  | some s, some r => some ((k, .jarr s) :: r)
  | _, _ => none

/-- Model of getPropertyPaths (src/index.js lines 456-476) on a record;
none marks the re-encoding branch on which the source may diverge (see
paF).  The function is only ever called on objects. -/
def getPropertyPaths : JVal → Option (List (String × JVal))
| .jobj l => gppEntries l
| _ => some []

/-- Presence of a token sequence inside a step array of the path index: an
empty remainder is always present, and a token is present when some step
object owns it and the remainder is present in the step value. -/
def stepsWalk : List JVal → List String → Bool
| _, [] => true
| steps, t :: rest =>
  steps.any fun step =>
    match step with
    | .jobj e =>
      match findVal t e with
      | some (.jarr steps2) => stepsWalk steps2 rest
      | _ => false
    | _ => false
termination_by _ tokens => tokens.length
decreasing_by simp_wf

/-- Presence of a nonempty token sequence in a path index: the first
token selects a top-level key, the rest walks its step array. -/
def pathIn (idx : List (String × JVal)) : List String → Bool
| [] => false
| t :: rest =>
  match findVal t idx with
  | some (.jarr steps) => stepsWalk steps rest
  | _ => false

/-! ## Attribute-tree path resolution (getAttributeAtPath) -/

/-- Model of Object.keys: the own enumerable property names of a value
(the index strings of an array or a string; length is an own property of
an array but is not enumerable, so it is not listed). -/
def keysOf : JVal → List String
| .jobj l => l.map Prod.fst
| .jarr l => (List.range l.length).map decStr
| .jstr s => (List.range s.length).map decStr
| _ => []

/-- Model of hasOwnProperty on a non-null value: exact key match on an
object; the canonical index strings and length on an array or a string;
nothing on a boxed number or boolean.  Calls on null throw and are
modelled at each call site. -/
def jsHasOwn : JVal → String → Bool
| .jobj l, k => (findVal k l).isSome
| .jarr l, k => k == "length" || (arrIndexOf k l.length).isSome
| .jstr s, k => k == "length" || (arrIndexOf k s.length).isSome
| _, _ => false

/-- Model of property access v[k] on a non-null value, agreeing with
jsHasOwn. -/
def getPropJ : JVal → String → Option JVal
| .jobj l, k => findVal k l
| .jarr l, k =>
  if k == "length" then some (.jnum (decStr l.length))
  else (arrIndexOf k l.length).bind (fun i => l.get? i)
| .jstr s, k =>
  if k == "length" then some (.jnum (decStr s.length))
  else (arrIndexOf k s.length).bind
    (fun i => (s.data.get? i).map (fun c => .jstr (String.mk [c])))
| _, _ => none

/-- Length property of a value as a number, for the index bound check of
the list branch: arrays and strings have one, other values compare as
undefined and the check fails. -/
def jsLen : JVal → Option Nat
| .jarr l => some l.length
| .jstr s => some s.length
| _ => none

/-- Descent step of the token loop of getAttributeAtPath (src/index.js
lines 613-641), computing the next attributeFound from the current
attribute ca, the remaining tokens and the current attributeFound af.
When the attribute has exactly one key, it descends:
scalar tags keep the attribute itself, M descends into the map value, the
list tags descend into the element array — but only if at most one token
remains, or the next token is a numeral below the array length.  The
numeral test models the isFinite coercion only for the nonnegative
integer numerals that occur as index tokens. -/
def gapDispatch (ca : JVal) (rest : List String) (af : JVal) : JVal :=
  match keysOf ca with
  | [code] =>
    if code = "S" ∨ code = "N" ∨ code = "B" ∨ code = "NULL" ∨ code = "BOOL" then ca
    else if code = "M" then (getPropJ ca "M").getD .jnull
    else if code = "L" ∨ code = "SS" ∨ code = "NS" ∨ code = "BS" then
      let content := (getPropJ ca code).getD .jnull
      if 1 < rest.length then
        match jsNumOpt (rest.headD ""), jsLen content with
        | some m, some len => if m < len then content else af
        | _, _ => af
      else content
    else af
  | _ => af

/-- Model of the token loop of getAttributeAtPath (src/index.js lines
607-646).  The state carries attributeFound and returnAttribute (none for
the false sentinel).  A found token stores its attribute in
returnAttribute and descends through gapDispatch; a missing token leaves
the state unchanged unless it is the last token, which turns the whole
result into the false sentinel. -/
def gapLoop : JVal → Option JVal → List String → Except String (Option JVal)
| _, ret, [] => .ok ret
| af, ret, current :: rest =>
  if isNullJ af then .error "TypeError: cannot read hasOwnProperty of null"
  else if jsHasOwn af current then
    let ca := (getPropJ af current).getD .jnull
    gapLoop (gapDispatch ca rest af) (some ca) rest
  else if rest.isEmpty then .ok none
  else gapLoop af ret rest

/-- Test for a string value. -/
def isJStr : JVal → Bool
| .jstr _ => true
| _ => false

/-- String carried by a string value. -/
def jstrVal : JVal → String
| .jstr s => s
| _ => ""

/-- Normalisation of the path argument of getAttributeAtPath (src/index.js
lines 595-597): an array whose elements are all strings is copied, a
string is split on the delimiter (the claims use the default dot), and
everything else is the failure marker false, modelled as none. -/
def toLocalPath : JVal → Option (List String)
| .jarr l => if l.all isJStr then some (l.map jstrVal) else none
| .jstr s => some (jsSplitDot s)
| _ => none

/-- Model of getAttributeAtPath (src/index.js lines 594-648).  The
legitimate-first-token check runs hasOwnProperty on the item before any
guard can return, so a null item throws; otherwise a malformed path, a
non-object item or an absent first token give the false sentinel, and the
token loop runs on the rest. -/
def getAttributeAtPath (item : JVal) (path : JVal) : Except String (Option JVal) :=
  let localPath := toLocalPath path
  if isNullJ item then .error "TypeError: cannot read hasOwnProperty of null"
  else
    let objectCheck := isObjectJ item
    let pathCheck := objectCheck && localPath.isSome
    let legitFirst :=
      match localPath with
      | some (t :: _) => jsHasOwn item t
      | _ => false
    if !pathCheck || !objectCheck || !legitFirst then .ok none
    else gapLoop item (some item) (localPath.getD [])

/-! ## Index-validating path conversions (toStringPath, toArrayPath) -/

/-- Model of steps.find(e => e.hasOwnProperty(cur)): the callback throws
when it meets a null element. -/
def findStepE (cur : String) : List JVal → Except String (Option JVal)
| [] => .ok none
| e :: es =>
  if isNullJ e then .error "TypeError: cannot read hasOwnProperty of null"
  else if jsHasOwn e cur then .ok (some e)
  else findStepE cur es

/-- Model of the reduce walk of toStringPath (src/index.js lines 493-503).
When the running value p is not null it must be an array (anything else
has no find method and throws); a missing step leaves find undefined and
the unguarded hasOwnProperty call on it throws; a found step keeps its
value when that value is a nonempty array, or when it is a non-array
owned property, and otherwise resets p to null. -/
def tsLoop : JVal → List String → Except String JVal
| p, [] => .ok p
| p, cur :: rest =>
  if isNullJ p then tsLoop p rest
  else
    match p with
    | .jarr steps => do
      let np ← findStepE cur steps
      match np with
      | none => .error "TypeError: cannot read hasOwnProperty of undefined"
      | some npv =>
        let value := (getPropJ npv cur).getD .jnull
        let shouldAssign :=
          match value with
          | .jarr l => decide (0 < l.length)
          | _ => jsHasOwn npv cur
        tsLoop (if shouldAssign then value else .jnull) rest
    | _ => .error "TypeError: p.find is not a function"

/-- Model of toStringPath (src/index.js lines 486-508).  The guard chain
requires an object paths argument, an array of strings and a present
first token; failing it returns undefined.  Passing it starts the reduce
walk from paths[first]; an empty name array would make the reduce itself
throw.  A non-null final state joins the names with the dot delimiter. -/
def toStringPath (paths : JVal) (propertyNames : JVal) : Except String (Option String) :=
  let pathCheck := isObjectJ paths
  let arrayCheck := pathCheck && isArrayJ propertyNames
  let allStringsCheck := arrayCheck &&
    (match propertyNames with | .jarr l => l.all isJStr | _ => false)
  let names := match propertyNames with | .jarr l => l.map jstrVal | _ => []
  let legitFirstCheck := allStringsCheck &&
    (match names with | t :: _ => jsHasOwn paths t | [] => jsHasOwn paths "undefined")
  if legitFirstCheck then
    match names with
    | [] => .error "TypeError: reduce of empty array with no initial value"
    | t0 :: restNames => do
      let pFinal ← tsLoop ((getPropJ paths t0).getD .jnull) restNames
      if isNullJ pFinal then .ok none
      else .ok (some (String.intercalate "." (t0 :: restNames)))
  else .ok none

/-- Model of the reduce walk of toArrayPath (src/index.js lines 525-531):
like tsLoop, but the hasOwnProperty test on the found step is guarded, so
a missing step resets p to null instead of throwing. -/
def taLoop : JVal → List String → Except String JVal
| p, [] => .ok p
| p, cur :: rest =>
  if isNullJ p then taLoop p rest
  else
    match p with
    | .jarr steps => do
      let np ← findStepE cur steps
      match np with
      | none => taLoop .jnull rest
      | some npv =>
        taLoop (if jsHasOwn npv cur then (getPropJ npv cur).getD .jnull else .jnull) rest
    | _ => .error "TypeError: p.find is not a function"

/-- Model of toArrayPath (src/index.js lines 518-536).  The split call on
the path argument runs before any validation, so every non-string path
argument throws a TypeError; with a string path the guards and the walk
return the token array only when every token resolves. -/
def toArrayPath (paths : JVal) (propertyString : JVal) : Except String (Option (List String)) :=
  let pathsCheck := isObjectJ paths
  match propertyString with
  | .jstr s =>
    let properties := jsSplitDot s
    let legitFirstCheck := pathsCheck &&
      (match properties with | t :: _ => jsHasOwn paths t | [] => false)
    if legitFirstCheck then
      match properties with
      | [] => .ok none
      | t0 :: restNames => do
        let pFinal ← taLoop ((getPropJ paths t0).getD .jnull) restNames
        if isNullJ pFinal then .ok none
        else .ok (some (t0 :: restNames))
    else .ok none
  | _ => .error "TypeError: propertyString.split is not a function"

/-! ## Plain-value path check (hasPropertyAtPath) -/

/-- Model of hasOwnProperty with the throw on a null receiver made
explicit. -/
def jsHasOwnE (item : JVal) (k : String) : Except String Bool :=
  if isNullJ item then .error "TypeError: cannot read hasOwnProperty of null"
  else .ok (jsHasOwn item k)

mutual
/-- Model of hasPropertyAtPath on an already split token list
(src/index.js lines 545-566): a one-token path is a direct hasOwnProperty
test, and any other path runs the map loop over all tokens. -/
def hasPropertyAtPathTokens : JVal → List String → Except String Bool
| item, [p] => jsHasOwnE item p
| item, [] => hppGo item [] false
| item, p :: q :: rest => hppGo item (p :: q :: rest) false
termination_by _ path => (path.length, 1)

/-- Model of the path.map loop of hasPropertyAtPath: every token found at
the top level overwrites the accumulator with the recursive check of the
remaining suffix, so the last matching token wins. -/
def hppGo : JVal → List String → Bool → Except String Bool
| _, [], acc => .ok acc
| item, p :: rest, acc => do
  let h ← jsHasOwnE item p
  let acc2 ← if h then hasPropertyAtPathTokens ((getPropJ item p).getD .jnull) rest
             else pure acc
  hppGo item rest acc2
termination_by _ path _ => (path.length, 0)
end

/-- Model of hasPropertyAtPath (src/index.js lines 545-566): an array
path is used as is (tokens coerce to property keys), a string path is
split on the dot delimiter, and any other shape warns and returns
false. -/
def hasPropertyAtPath (item : JVal) (pathChain : JVal) : Except String Bool :=
  match pathChain with
  | .jarr l => hasPropertyAtPathTokens item (l.map jstrVal)
  | .jstr s => hasPropertyAtPathTokens item (jsSplitDot s)
  | _ => .ok false

/-! ## Claim C6: malformed path arguments -/

/-- C6 counterexample: toArrayPath calls split on its path argument before
any validation, so a numeric path argument throws a TypeError instead of
returning the undefined sentinel the claim promises. -/
theorem C6_counterexample :
    toArrayPath (.jobj [("a", .jarr [])]) (.jnum "123") =
      .error "TypeError: propertyString.split is not a function" := rfl

/-- Every element of a string token array is a string value. -/
theorem all_isJStr_map (tokens : List String) :
    (tokens.map JVal.jstr).all isJStr = true := by
  apply List.all_eq_true.mpr
  intro x hx
  rcases List.mem_map.mp hx with ⟨s2, _, rfl⟩
  rfl

/-- Unwrapping a wrapped token is the identity. -/
theorem jstrVal_comp_jstr : jstrVal ∘ JVal.jstr = id := rfl

/-- Unwrapping a string token array recovers the tokens. -/
theorem map_jstrVal_map_jstr (tokens : List String) :
    (tokens.map JVal.jstr).map jstrVal = tokens := by
  rw [List.map_map, jstrVal_comp_jstr, List.map_id]

/-- When no step of a step list owns the token (and none is null, which
would throw first), the find call comes back empty. -/
theorem findStepE_none {cur : String} {steps : List JVal}
    (h1 : ∀ e ∈ steps, isNullJ e = false)
    (h2 : ∀ e ∈ steps, jsHasOwn e cur = false) :
    findStepE cur steps = .ok none := by
  induction steps with
  | nil => rfl
  | cons e es ih =>
    simp only [findStepE, h1 e (List.mem_cons_self _ _),
      h2 e (List.mem_cons_self _ _), Bool.false_eq_true, if_false]
    exact ih (fun x hx => h1 x (List.mem_cons_of_mem _ hx))
      (fun x hx => h2 x (List.mem_cons_of_mem _ hx))

/-- C6 (amended): the guard chains that run before any unguarded
operation return the failure sentinel without raising — toStringPath
returns undefined when paths is not an object, when the names argument is
not an array, or when the first token is absent from paths;
getAttributeAtPath returns false for a path argument that is neither a
string array nor a string, or for an absent first token, whenever the
item is not null; and toArrayPath returns undefined for a non-object
paths argument when its path argument is a string.  The claim fails in
the remaining cases, proved here as well: toArrayPath throws on every
non-string path argument (split runs before validation), toStringPath
throws when a later token matches no step (the unguarded hasOwnProperty
call on the undefined find result), and getAttributeAtPath throws on a
null item (the first-token check runs hasOwnProperty on the item before
any guard). -/
theorem C6_amended :
    (∀ (paths propertyNames : JVal),
        isObjectJ paths = false ∨ isArrayJ propertyNames = false →
        toStringPath paths propertyNames = .ok none) ∧
    (∀ (paths : JVal) (t : String) (rest : List String),
        jsHasOwn paths t = false →
        toStringPath paths (.jarr ((t :: rest).map .jstr)) = .ok none) ∧
    (∀ (item path : JVal), isNullJ item = false → toLocalPath path = none →
        getAttributeAtPath item path = .ok none) ∧
    (∀ (item path : JVal) (t : String) (rest : List String),
        isNullJ item = false → toLocalPath path = some (t :: rest) →
        jsHasOwn item t = false → getAttributeAtPath item path = .ok none) ∧
    (∀ (paths : JVal) (s : String), isObjectJ paths = false →
        toArrayPath paths (.jstr s) = .ok none) ∧
    (∀ (paths path : JVal), isJStr path = false →
        toArrayPath paths path =
          .error "TypeError: propertyString.split is not a function") ∧
    (∀ path : JVal, getAttributeAtPath .jnull path =
        .error "TypeError: cannot read hasOwnProperty of null") ∧
    (∀ (paths : JVal) (t0 t1 : String) (restNames : List String)
        (steps : List JVal),
        isObjectJ paths = true → jsHasOwn paths t0 = true →
        getPropJ paths t0 = some (.jarr steps) →
        (∀ e ∈ steps, isNullJ e = false) →
        (∀ e ∈ steps, jsHasOwn e t1 = false) →
        toStringPath paths (.jarr ((t0 :: t1 :: restNames).map .jstr)) =
          .error "TypeError: cannot read hasOwnProperty of undefined") := by
  refine ⟨?_, ?_, ?_, ?_, ?_, ?_, ?_, ?_⟩
  · intro paths propertyNames h
    rcases h with h | h
    · simp [toStringPath, h]
    · simp [toStringPath, h]
  · intro paths t rest h
    simp [toStringPath, jstrVal, h]
  · intro item path h1 h2
    simp [getAttributeAtPath, h1, h2]
  · intro item path t rest h1 h2 h3
    simp [getAttributeAtPath, h1, h2, h3]
  · intro paths s h
    simp [toArrayPath, h]
  · intro paths path hp
    cases path with
    | jstr s => cases hp
    | jnum s => rfl
    | jbool b => rfl
    | jnull => rfl
    | jarr l => rfl
    | jobj l => rfl
  · intro path
    rfl
  · intro paths t0 t1 restNames steps hobj hfirst hget hnn hno
    have hfs : findStepE t1 steps = .ok none := findStepE_none hnn hno
    have hts : tsLoop (.jarr steps) (t1 :: restNames) =
        .error "TypeError: cannot read hasOwnProperty of undefined" := by
      simp only [tsLoop, isNullJ, Bool.false_eq_true, if_false, hfs]
      rfl
    simp [toStringPath, jstrVal, isJStr, isArrayJ, hobj, hfirst, hget, hts,
      all_isJStr_map, jstrVal_comp_jstr]
    rfl

/-- C6 witness: concrete malformed calls returning the sentinel without
raising, and concrete calls exhibiting each of the three throw cases. -/
theorem C6_witness :
    toStringPath .jnull .jnull = .ok none ∧
    toStringPath (.jobj []) (.jarr [.jstr "a"]) = .ok none ∧
    getAttributeAtPath (.jobj []) (.jnum "5") = .ok none ∧
    getAttributeAtPath (.jobj []) (.jarr [.jstr "a"]) = .ok none ∧
    toArrayPath .jnull (.jstr "a.b") = .ok none ∧
    toArrayPath (.jobj []) (.jbool true) =
      .error "TypeError: propertyString.split is not a function" ∧
    getAttributeAtPath .jnull (.jstr "a") =
      .error "TypeError: cannot read hasOwnProperty of null" ∧
    toStringPath (.jobj [("a", .jarr [])]) (.jarr [.jstr "a", .jstr "b"]) =
      .error "TypeError: cannot read hasOwnProperty of undefined" :=
  ⟨C6_amended.1 .jnull .jnull (Or.inl rfl),
   C6_amended.2.1 (.jobj []) "a" [] rfl,
   C6_amended.2.2.1 (.jobj []) (.jnum "5") rfl rfl,
   C6_amended.2.2.2.1 (.jobj []) (.jarr [.jstr "a"]) "a" [] rfl rfl rfl,
   C6_amended.2.2.2.2.1 .jnull "a.b" rfl,
   C6_amended.2.2.2.2.2.1 (.jobj []) (.jbool true) rfl,
   C6_amended.2.2.2.2.2.2.1 (.jstr "a"),
   C6_amended.2.2.2.2.2.2.2 (.jobj [("a", .jarr [])]) "a" "b" [] [] rfl rfl rfl
     (fun e he => absurd he (List.not_mem_nil e))
     (fun e he => absurd he (List.not_mem_nil e))⟩

/-! ## Claim C7: whole-path failure -/

/-- C7 evaluation: in the item encoding the record with the single field a
holding the map with the single field b = "x", the path a.zzz.b has the
failing middle token zzz, yet getAttributeAtPath returns the attribute
found at a.b instead of the false sentinel, because the token loop never
breaks and only a failing last token turns the result into false. -/
theorem C7_code_eval :
    getAttributeAtPath
      (.jobj [("a", .jobj [("M", .jobj [("b", .jobj [("S", .jstr "x")])])])])
      (.jarr [.jstr "a", .jstr "zzz", .jstr "b"]) =
      .ok (some (.jobj [("S", .jstr "x")])) := rfl

/-! ## Claim C8: plain-value path existence check -/

/-- C8 evaluation: the item has the property chain a.b (and also a
top-level b), so the claim requires true, but the map loop of
hasPropertyAtPath also processes the later token b at the top level and
overwrites the accumulator with the check of b followed by an empty
suffix, which is false. -/
theorem C8_code_eval :
    hasPropertyAtPath
      (.jobj [("a", .jobj [("b", .jnum "1")]), ("b", .jnum "2")])
      (.jarr [.jstr "a", .jstr "b"]) = .ok false := by
  simp only [hasPropertyAtPath, hasPropertyAtPathTokens, hppGo, jsHasOwnE,
    jsHasOwn, findVal, getPropJ, isNullJ, jstrVal, List.map]
  rfl

/-! ## Facts about decimal index strings -/

/-- Digit characters are digit characters. -/
theorem decDigit_isDigit (d : Nat) (h : d < 10) : isDigitCh (decDigit d) = true := by
  interval_cases d <;> rfl

/-- Numeric value of a digit character. -/
theorem decDigit_toNat (d : Nat) (h : d < 10) : (decDigit d).toNat - 48 = d := by
  interval_cases d <;> rfl

/-- Appending a digit multiplies the value by ten and adds the digit. -/
theorem decVal_append (l : List Char) (c : Char) :
    decVal (l ++ [c]) = 10 * decVal l + (c.toNat - 48) := by
  simp [decVal, List.foldl_append]

/-- decVal inverts decChars. -/
theorem decVal_decChars (n : Nat) : decVal (decChars n) = n := by
  induction n using Nat.strong_induction_on with
  | _ n ih =>
    rw [decChars]
    split
    · rename_i h
      simp [decVal]
      exact decDigit_toNat n h
    · rename_i h
      rw [decVal_append, ih (n / 10) (Nat.div_lt_self (by omega) (by omega)),
        decDigit_toNat (n % 10) (Nat.mod_lt _ (by omega))]
      omega

/-- Every character of a decimal string is a digit. -/
theorem decChars_digits (n : Nat) : ∀ c ∈ decChars n, isDigitCh c = true := by
  induction n using Nat.strong_induction_on with
  | _ n ih =>
    rw [decChars]
    split
    · rename_i h
      intro c hc
      simp at hc
      subst hc
      exact decDigit_isDigit n h
    · rename_i h
      intro c hc
      rcases List.mem_append.mp hc with hc | hc
      · exact ih (n / 10) (Nat.div_lt_self (by omega) (by omega)) c hc
      · simp at hc
        subst hc
        exact decDigit_isDigit (n % 10) (Nat.mod_lt _ (by omega))

/-- Decimal strings of distinct numbers are distinct. -/
theorem decStr_inj {a b : Nat} (h : decStr a = decStr b) : a = b := by
  have hd : decChars a = decChars b := congrArg String.data h
  have hv := congrArg decVal hd
  rwa [decVal_decChars, decVal_decChars] at hv

/-- The JavaScript numeric interpretation recovers the index from its
decimal string. -/
theorem jsNumOpt_decStr (n : Nat) : jsNumOpt (decStr n) = some n := by
  rw [jsNumOpt, show (decStr n).data = decChars n from rfl, if_pos, decVal_decChars]
  exact List.all_eq_true.mpr (decChars_digits n)

/-- A decimal string below the length is recognised as a canonical
index. -/
theorem arrIndexOf_decStr (j len : Nat) (h : j < len) :
    arrIndexOf (decStr j) len = some j := by
  rw [arrIndexOf, jsNumOpt_decStr]
  simp [h]

/-- A decimal string never collides with the length property name. -/
theorem decStr_ne_length (n : Nat) : decStr n ≠ "length" := by
  intro h
  have hd : decChars n = "length".data := congrArg String.data h
  have hmem : 'l' ∈ decChars n := by
    rw [hd]
    decide
  exact absurd (decChars_digits n 'l' hmem) (by decide)

/-! ## Facts about lookups and the encoders -/

/-- Lookup in the encoded map mirrors lookup in the record. -/
theorem findVal_mapAttr (t : String) (l : List (String × JVal)) :
    findVal t (mapAttr l) = (findVal t l).map createAttribute := by
  induction l with
  | nil => simp [mapAttr, findVal]
  | cons kv r ih =>
    obtain ⟨k, v⟩ := kv
    rw [mapAttr]
    by_cases hk : k = t
    · simp [findVal, hk]
    · simp [findVal, hk, ih]

/-- Encoding the entries keeps the length. -/
theorem mapAttr_length (l : List (String × JVal)) : (mapAttr l).length = l.length := by
  induction l with
  | nil => simp [mapAttr]
  | cons kv r ih => obtain ⟨k, v⟩ := kv; simp [mapAttr, ih]

/-- Encoding the elements keeps the length. -/
theorem mapCA_length (es : List JVal) : (mapCA es).length = es.length := by
  induction es with
  | nil => simp [mapCA]
  | cons p ps ih => simp [mapCA, ih]

/-- Element access on the encoded array mirrors access on the source
array. -/
theorem mapCA_get? (es : List JVal) (j : Nat) :
    (mapCA es).get? j = (es.get? j).map createAttribute := by
  induction es generalizing j with
  | nil => simp [mapCA]
  | cons p ps ih =>
    cases j with
    | zero =>
      rw [mapCA]
      rfl
    | succ j =>
      rw [mapCA]
      exact ih j

/-- A found value is a member. -/
theorem findVal_mem {t : String} {l : List (String × JVal)} {v : JVal}
    (h : findVal t l = some v) : (t, v) ∈ l := by
  induction l with
  | nil => cases h
  | cons kv r ih =>
    obtain ⟨k, w⟩ := kv
    rw [findVal] at h
    split at h
    · rename_i hk
      cases h
      subst hk
      exact List.mem_cons_self _ _
    · exact List.mem_cons_of_mem _ (ih h)

/-- Under distinct keys, membership determines the lookup. -/
theorem findVal_nodup_mem {t : String} {v : JVal} {l : List (String × JVal)}
    (hmem : (t, v) ∈ l) (hnd : (l.map Prod.fst).Nodup) : findVal t l = some v := by
  induction l with
  | nil => cases hmem
  | cons kv r ih =>
    obtain ⟨k, w⟩ := kv
    rw [List.map_cons, List.nodup_cons] at hnd
    rcases List.mem_cons.mp hmem with h | h
    · cases h
      simp [findVal]
    · have hk : k ≠ t := by
        intro hk
        subst hk
        exact hnd.1 (List.mem_map.mpr ⟨(k, v), h, rfl⟩)
      simp [findVal, hk]
      exact ih h hnd.2

/-- Shape of the encoded nonempty record. -/
theorem createAttribute_jobj_ne (l : List (String × JVal)) (h : l ≠ []) :
    createAttribute (.jobj l) = .jobj [("M", .jobj (mapAttr l))] := by
  rw [createAttribute, object2Map, if_pos]
  rw [mapAttr_length]
  exact List.length_pos.mpr h

/-- Shape of the encoded empty record. -/
theorem createAttribute_jobj_nil : createAttribute (.jobj []) = nullAttr := by
  rw [createAttribute, object2Map]
  simp [mapAttr]

/-! ## Recursively distinct keys -/

mutual
/-- Values whose objects have distinct keys at every depth.  JavaScript
objects always have distinct keys, so this recovers the invariant the
association-list model does not enforce by itself. -/
def noDups : JVal → Bool
| .jobj l => decide ((l.map Prod.fst).Nodup) && noDupsEntries l
| .jarr es => noDupsList es
| _ => true

/-- Conjunction of noDups over the elements of an array. -/
def noDupsList : List JVal → Bool
| [] => true
| p :: ps => noDups p && noDupsList ps

/-- Conjunction of noDups over the entry values of an object. -/
def noDupsEntries : List (String × JVal) → Bool
| [] => true
| (_, v) :: r => noDups v && noDupsEntries r
end

/-- Entry values inherit noDups. -/
theorem noDupsEntries_mem {l : List (String × JVal)} (h : noDupsEntries l = true) :
    ∀ kv ∈ l, noDups kv.2 = true := by
  induction l with
  | nil => intro kv hkv; cases hkv
  | cons kv2 r ih =>
    obtain ⟨k, v⟩ := kv2
    rw [noDupsEntries, Bool.and_eq_true] at h
    intro kv hkv
    rcases List.mem_cons.mp hkv with h2 | h2
    · subst h2; exact h.1
    · exact ih h.2 kv h2

/-- Elements inherit noDups. -/
theorem noDupsList_mem {es : List JVal} (h : noDupsList es = true) :
    ∀ p ∈ es, noDups p = true := by
  induction es with
  | nil => intro p hp; cases hp
  | cons q ps ih =>
    rw [noDupsList, Bool.and_eq_true] at h
    intro p hp
    rcases List.mem_cons.mp hp with h2 | h2
    · subst h2; exact h.1
    · exact ih h.2 p h2

/-- Unfolding of noDups on an object. -/
theorem noDups_jobj {l : List (String × JVal)} (h : noDups (.jobj l) = true) :
    (l.map Prod.fst).Nodup ∧ ∀ kv ∈ l, noDups kv.2 = true := by
  rw [noDups, Bool.and_eq_true] at h
  exact ⟨of_decide_eq_true h.1, noDupsEntries_mem h.2⟩

/-- Unfolding of noDups on an array. -/
theorem noDups_jarr {es : List JVal} (h : noDups (.jarr es) = true) :
    ∀ p ∈ es, noDups p = true := by
  rw [noDups] at h
  exact noDupsList_mem h

/-! ## Inversion of the path index builder -/

/-- Every step of an object sub-index comes from an entry of the object. -/
theorem paFObj_inv {l : List (String × JVal)} {S : List JVal}
    (h : paFObj l = some S) :
    ∀ step ∈ S, ∃ k v s, (k, v) ∈ l ∧ paF v = some s ∧
      step = JVal.jobj [(k, .jarr s)] := by
  induction l generalizing S with
  | nil =>
    rw [paFObj] at h
    cases h
    intro step hstep
    cases hstep
  | cons kv r ih =>
    obtain ⟨k, v⟩ := kv
    rw [paFObj] at h
    cases hv : paF v with
    | none =>
      cases hr : paFObj r <;> rw [hv, hr] at h <;> cases h
    | some s =>
      cases hr : paFObj r with
      | none => rw [hv, hr] at h; cases h
      | some rr =>
        rw [hv, hr] at h
        cases h
        intro step hstep
        rcases List.mem_cons.mp hstep with h2 | h2
        · exact ⟨k, v, s, List.mem_cons_self _ _, hv, h2⟩
        · obtain ⟨k2, v2, s2, hmem, hp, hsh⟩ := ih hr step h2
          exact ⟨k2, v2, s2, List.mem_cons_of_mem _ hmem, hp, hsh⟩

/-- Every step of an array sub-index comes from an element, keyed by its
decimal index. -/
theorem paFArr_inv {es : List JVal} {S : List JVal} {i : Nat}
    (h : paFArr i es = some S) :
    ∀ step ∈ S, ∃ j p s, es.get? j = some p ∧ paF p = some s ∧
      step = JVal.jobj [(decStr (i + j), .jarr s)] := by
  induction es generalizing i S with
  | nil =>
    rw [paFArr] at h
    cases h
    intro step hstep
    cases hstep
  | cons p ps ih =>
    rw [paFArr] at h
    by_cases hq : optIsObject (getProp1 p) = true
    · rw [if_pos hq] at h; cases h
    · rw [if_neg hq] at h
      cases hv : paF p with
      | none =>
        cases hr : paFArr (i + 1) ps <;> rw [hv, hr] at h <;> cases h
      | some s =>
        cases hr : paFArr (i + 1) ps with
        | none => rw [hv, hr] at h; cases h
        | some rr =>
          rw [hv, hr] at h
          cases h
          intro step hstep
          rcases List.mem_cons.mp hstep with h2 | h2
          · refine ⟨0, p, s, rfl, hv, ?_⟩
            rw [Nat.add_zero]
            exact h2
          · obtain ⟨j2, p2, s2, hget, hp, hsh⟩ := ih hr step h2
            refine ⟨j2 + 1, p2, s2, hget, hp, ?_⟩
            rw [show i + (j2 + 1) = i + 1 + j2 by omega]
            exact hsh

/-- A top-level lookup in the built index comes from a top-level entry of
the record. -/
theorem gppEntries_inv {l : List (String × JVal)} {idx : List (String × JVal)}
    (h : gppEntries l = some idx) {t : String} {S : List JVal}
    (hf : findVal t idx = some (.jarr S)) :
    ∃ v, findVal t l = some v ∧ paF v = some S := by
  induction l generalizing idx with
  | nil =>
    rw [gppEntries] at h
    cases h
    cases hf
  | cons kv r ih =>
    obtain ⟨k, v⟩ := kv
    rw [gppEntries] at h
    cases hv : paF v with
    | none =>
      cases hr : gppEntries r <;> rw [hv, hr] at h <;> cases h
    | some s =>
      cases hr : gppEntries r with
      | none => rw [hv, hr] at h; cases h
      | some rr =>
        rw [hv, hr] at h
        cases h
        rw [findVal] at hf
        by_cases hk : k = t
        · subst hk
          rw [if_pos rfl] at hf
          injection hf with hf1
          injection hf1 with hf2
          subst hf2
          exact ⟨v, by rw [findVal, if_pos rfl], hv⟩
        · rw [if_neg hk] at hf
          obtain ⟨v2, hfv, hp⟩ := ih hr hf
          refine ⟨v2, ?_, hp⟩
          rw [findVal, if_neg hk]
          exact hfv

/-! ## Walking the index -/

/-- Extraction from a successful walk step: some step object owns the
token and its step array continues the walk. -/
theorem stepsWalk_elim {S : List JVal} {t : String} {rest : List String}
    (h : stepsWalk S (t :: rest) = true) :
    ∃ step ∈ S, ∃ e S2, step = JVal.jobj e ∧ findVal t e = some (.jarr S2) ∧
      stepsWalk S2 rest = true := by
  simp only [stepsWalk] at h
  obtain ⟨step, hmem, hcond⟩ := List.any_eq_true.mp h
  cases step with
  | jobj e =>
    have hc2 : (match findVal t e with
        | some (.jarr steps2) => stepsWalk steps2 rest
        | _ => false) = true := hcond
    cases hf : findVal t e with
    | none => rw [hf] at hc2; cases hc2
    | some w =>
      rw [hf] at hc2
      cases w with
      | jstr s => cases hc2
      | jnum s => cases hc2
      | jbool b => cases hc2
      | jnull => cases hc2
      | jobj l2 => cases hc2
      | jarr S2 => exact ⟨.jobj e, hmem, e, S2, rfl, hf, hc2⟩
  | jstr s => cases hcond
  | jnum s => cases hcond
  | jbool b => cases hcond
  | jnull => cases hcond
  | jarr l2 => cases hcond

/-- An empty step array only walks the empty token sequence. -/
theorem stepsWalk_nil_elim {tokens : List String}
    (h : stepsWalk [] tokens = true) : tokens = [] := by
  cases tokens with
  | nil => rfl
  | cons t rest =>
    simp only [stepsWalk] at h
    cases h

/-- The object sub-index is the one-key packaging of the top-level
index. -/
theorem paFObj_eq_gpp (l : List (String × JVal)) :
    paFObj l =
      (gppEntries l).map (fun idx => idx.map (fun kv => JVal.jobj [kv])) := by
  induction l with
  | nil => rw [paFObj, gppEntries]; rfl
  | cons kv r ih =>
    obtain ⟨k, v⟩ := kv
    rw [paFObj, gppEntries, ih]
    cases hv : paF v <;> cases hr : gppEntries r <;> simp

/-- Presence in the index gives a successful walk of the packaged step
list. -/
theorem pathIn_imp_stepsWalk {idx : List (String × JVal)} {tokens : List String}
    (h : pathIn idx tokens = true) :
    stepsWalk (idx.map (fun kv => JVal.jobj [kv])) tokens = true := by
  cases tokens with
  | nil => rw [pathIn] at h; cases h
  | cons t rest =>
    rw [pathIn] at h
    cases hf : findVal t idx with
    | none => rw [hf] at h; cases h
    | some w =>
      cases w with
      | jstr s => rw [hf] at h; cases h
      | jnum s => rw [hf] at h; cases h
      | jbool b => rw [hf] at h; cases h
      | jnull => rw [hf] at h; cases h
      | jobj l2 => rw [hf] at h; cases h
      | jarr S =>
        rw [hf] at h
        simp only [stepsWalk]
        apply List.any_eq_true.mpr
        refine ⟨.jobj [(t, .jarr S)],
          List.mem_map.mpr ⟨(t, .jarr S), findVal_mem hf, rfl⟩, ?_⟩
        show (match findVal t [(t, .jarr S)] with
          | some (.jarr steps2) => stepsWalk steps2 rest
          | _ => false) = true
        rw [show findVal t [(t, .jarr S)] = some (.jarr S) by rw [findVal]; simp]
        exact h

/-! ## Correspondence of index walks and attribute descent -/

/-- Invariant tying a record value to the attributeFound position the
token loop reaches after consuming the token that selected the value: an
array is entered through its element list, a nonempty object through its
encoded entry map, and scalars are never entered. -/
def AfState (v af : JVal) : Prop :=
  match v with
  | .jarr es => af = .jarr (mapCA es)
  | .jobj l => l = [] ∨ af = .jobj (mapAttr l)
  | _ => True

/-- Evaluation of the loop on an exhausted token list. -/
theorem gapLoop_nil (af ret : JVal) : gapLoop af (some ret) [] = .ok (some ret) := rfl

/-- Descent step after a consumed token: if the walk of the remaining
tokens succeeds in the sub-index of the selected value, the loop resumes
from the dispatched position and succeeds.  The induction hypothesis over
the remaining tokens is threaded explicitly. -/
theorem afterToken (rest : List String)
    (ih : ∀ (v : JVal) (S : List JVal) (af ret : JVal),
        paF v = some S → stepsWalk S rest = true → noDups v = true →
        AfState v af → ∃ a, gapLoop af (some ret) rest = Except.ok (some a))
    (v2 : JVal) (S2 : List JVal) (af : JVal)
    (hpv : paF v2 = some S2) (hw : stepsWalk S2 rest = true)
    (hnd : noDups v2 = true) :
    ∃ a, gapLoop (gapDispatch (createAttribute v2) rest af)
      (some (createAttribute v2)) rest = Except.ok (some a) := by
  cases v2 with
  | jstr s =>
    have hS2 : S2 = [] := by
      simp only [paF] at hpv
      exact (Option.some.inj hpv).symm
    subst hS2
    rw [stepsWalk_nil_elim hw]
    exact ⟨_, gapLoop_nil _ _⟩
  | jnum s =>
    have hS2 : S2 = [] := by
      simp only [paF] at hpv
      exact (Option.some.inj hpv).symm
    subst hS2
    rw [stepsWalk_nil_elim hw]
    exact ⟨_, gapLoop_nil _ _⟩
  | jbool b =>
    have hS2 : S2 = [] := by
      simp only [paF] at hpv
      exact (Option.some.inj hpv).symm
    subst hS2
    rw [stepsWalk_nil_elim hw]
    exact ⟨_, gapLoop_nil _ _⟩
  | jnull =>
    have hS2 : S2 = [] := by
      simp only [paF] at hpv
      exact (Option.some.inj hpv).symm
    subst hS2
    rw [stepsWalk_nil_elim hw]
    exact ⟨_, gapLoop_nil _ _⟩
  | jobj m =>
    have hS : paFObj m = some S2 := by
      simp only [paF] at hpv
      exact hpv
    cases rest with
    | nil => exact ⟨_, gapLoop_nil _ _⟩
    | cons r rrest =>
      cases m with
      | nil =>
        rw [paFObj] at hS
        have hS2 : S2 = [] := (Option.some.inj hS).symm
        subst hS2
        cases stepsWalk_nil_elim hw
      | cons kv m2 =>
        have hm : (kv :: m2) ≠ [] := by simp
        rw [createAttribute_jobj_ne _ hm]
        have hgd : gapDispatch (.jobj [("M", .jobj (mapAttr (kv :: m2)))])
            (r :: rrest) af = .jobj (mapAttr (kv :: m2)) := by
          simp [gapDispatch, keysOf, getPropJ, findVal]
        rw [hgd, ← createAttribute_jobj_ne _ hm]
        exact ih (.jobj (kv :: m2)) S2 _ _ hpv hw hnd (Or.inr rfl)
  | jarr es2 =>
    have hS : paFArr 0 es2 = some S2 := by
      simp only [paF] at hpv
      exact hpv
    have hca : createAttribute (.jarr es2) = .jobj [("L", .jarr (mapCA es2))] := by
      rw [createAttribute]
    cases rest with
    | nil => exact ⟨_, gapLoop_nil _ _⟩
    | cons r1 rrest =>
      cases rrest with
      | nil =>
        rw [hca]
        have hgd : gapDispatch (.jobj [("L", .jarr (mapCA es2))]) [r1] af =
            .jarr (mapCA es2) := by
          simp [gapDispatch, keysOf, getPropJ, findVal]
        rw [hgd, ← hca]
        exact ih (.jarr es2) S2 _ _ hpv hw hnd rfl
      | cons r2 rrest2 =>
        obtain ⟨step, hmem, e, Sb, hstep, hfind, hw2⟩ := stepsWalk_elim hw
        obtain ⟨j, p, s, hget, hp, hsh⟩ := paFArr_inv hS step hmem
        rw [hsh] at hstep
        injection hstep with he
        subst he
        rw [findVal] at hfind
        by_cases hk : decStr (0 + j) = r1
        · have hj : j < es2.length := by
            rcases List.get?_eq_some.mp hget with ⟨hlt, _⟩
            exact hlt
          rw [hca]
          have hgd : gapDispatch (.jobj [("L", .jarr (mapCA es2))])
              (r1 :: r2 :: rrest2) af = .jarr (mapCA es2) := by
            subst hk
            simp [gapDispatch, keysOf, getPropJ, findVal, jsLen, Nat.zero_add,
              jsNumOpt_decStr, mapCA_length, hj]
          rw [hgd, ← hca]
          exact ih (.jarr es2) S2 _ _ hpv hw hnd rfl
        · rw [if_neg hk] at hfind
          cases hfind

/-- Main walk correspondence: every token sequence present in the
sub-index of a value resolves successfully through the token loop of
getAttributeAtPath, starting from the matching attributeFound position. -/
theorem gapWalk (tokens : List String) :
    ∀ (v : JVal) (S : List JVal) (af : JVal) (ret : JVal),
      paF v = some S → stepsWalk S tokens = true → noDups v = true →
      AfState v af →
      ∃ a, gapLoop af (some ret) tokens = Except.ok (some a) := by
  induction tokens with
  | nil =>
    intro v S af ret _ _ _ _
    exact ⟨ret, gapLoop_nil _ _⟩
  | cons t rest ih =>
    intro v S af ret hpaF hwalk hnd hst
    obtain ⟨step, hmem, e, S2, hstep, hfind, hwalk2⟩ := stepsWalk_elim hwalk
    cases v with
    | jstr s =>
      have hS : S = [] := by
        simp only [paF] at hpaF
        exact (Option.some.inj hpaF).symm
      subst hS
      cases hmem
    | jnum s =>
      have hS : S = [] := by
        simp only [paF] at hpaF
        exact (Option.some.inj hpaF).symm
      subst hS
      cases hmem
    | jbool b =>
      have hS : S = [] := by
        simp only [paF] at hpaF
        exact (Option.some.inj hpaF).symm
      subst hS
      cases hmem
    | jnull =>
      have hS : S = [] := by
        simp only [paF] at hpaF
        exact (Option.some.inj hpaF).symm
      subst hS
      cases hmem
    | jobj l =>
      have hS : paFObj l = some S := by
        simp only [paF] at hpaF
        exact hpaF
      obtain ⟨k, v2, s2, hkv, hpv2, hshape⟩ := paFObj_inv hS step hmem
      rw [hshape] at hstep
      injection hstep with he
      subst he
      rw [findVal] at hfind
      by_cases hk : k = t
      · subst hk
        rw [if_pos rfl] at hfind
        injection hfind with hf1
        injection hf1 with hf2
        subst hf2
        have hl : l ≠ [] := fun hnil => by
          subst hnil
          cases hkv
        rcases hst with h0 | haf
        · exact absurd h0 hl
        subst haf
        obtain ⟨hndk, hndmem⟩ := noDups_jobj hnd
        have hfv : findVal k l = some v2 := findVal_nodup_mem hkv hndk
        have hown : jsHasOwn (.jobj (mapAttr l)) k = true := by
          simp [jsHasOwn, findVal_mapAttr, hfv]
        have hget : getPropJ (.jobj (mapAttr l)) k = some (createAttribute v2) := by
          simp [getPropJ, findVal_mapAttr, hfv]
        simp only [gapLoop, isNullJ, hown, hget, Option.getD_some, Bool.false_eq_true,
          if_false, if_true]
        exact afterToken rest ih v2 s2 _ hpv2 hwalk2 (hndmem _ hkv)
      · rw [if_neg hk] at hfind
        cases hfind
    | jarr es =>
      have hS : paFArr 0 es = some S := by
        simp only [paF] at hpaF
        exact hpaF
      obtain ⟨j, p, s, hget0, hp, hsh⟩ := paFArr_inv hS step hmem
      rw [hsh] at hstep
      injection hstep with he
      subst he
      rw [findVal] at hfind
      by_cases hk : decStr (0 + j) = t
      · subst hk
        rw [if_pos rfl] at hfind
        injection hfind with hf1
        injection hf1 with hf2
        subst hf2
        have haf : af = .jarr (mapCA es) := hst
        subst haf
        have hj : j < es.length := by
          rcases List.get?_eq_some.mp hget0 with ⟨hlt, _⟩
          exact hlt
        have hne : (decStr j == "length") = false := by
          rw [beq_eq_false_iff_ne]
          exact decStr_ne_length j
        have hown : jsHasOwn (.jarr (mapCA es)) (decStr (0 + j)) = true := by
          simp [jsHasOwn, mapCA_length, Nat.zero_add, arrIndexOf_decStr _ _ hj]
        have hget2 : (mapCA es).get? j = some (createAttribute p) := by
          rw [mapCA_get?, hget0]
          rfl
        have hget : getPropJ (.jarr (mapCA es)) (decStr (0 + j)) =
            some (createAttribute p) := by
          simp only [getPropJ, Nat.zero_add, hne, Bool.false_eq_true, if_false,
            mapCA_length, arrIndexOf_decStr _ _ hj, Option.some_bind]
          exact hget2
        simp only [gapLoop, isNullJ, hown, hget, Option.getD_some, Bool.false_eq_true,
          if_false, if_true]
        exact afterToken rest ih p s _ hp hwalk2
          (noDups_jarr hnd p (List.get?_mem hget0))
      · rw [if_neg hk] at hfind
        cases hfind

/-- Normalisation of a string token array to its token list. -/
theorem toLocalPath_strings (tokens : List String) :
    toLocalPath (.jarr (tokens.map .jstr)) = some tokens := by
  have h1 : (tokens.map JVal.jstr).all isJStr = true := by
    apply List.all_eq_true.mpr
    intro x hx
    rcases List.mem_map.mp hx with ⟨s2, _, rfl⟩
    rfl
  have h2 : (tokens.map JVal.jstr).map jstrVal = tokens := by
    rw [List.map_map, show jstrVal ∘ JVal.jstr = id from rfl, List.map_id]
  rw [toLocalPath, if_pos h1, h2]

/-- C5 counterexample: the single-field record a = "x" indexes the path
a, but resolving that path against createAttribute of the record itself
returns the false sentinel, because the encoded record is wrapped in an M
attribute whose only top-level key is M. -/
theorem C5_counterexample :
    getPropertyPaths (.jobj [("a", .jstr "x")]) = some [("a", .jarr [])] ∧
    pathIn [("a", .jarr [])] ["a"] = true ∧
    getAttributeAtPath (createAttribute (.jobj [("a", .jstr "x")]))
      (.jarr [.jstr "a"]) = .ok none := by
  refine ⟨?_, ?_, ?_⟩
  · simp [getPropertyPaths, gppEntries, paF]
  · simp [pathIn, findVal, stepsWalk]
  · have hca : createAttribute (.jobj [("a", .jstr "x")]) =
        .jobj [("M", .jobj [("a", .jobj [("S", .jstr "x")])])] := by
      rw [createAttribute_jobj_ne _ (by simp)]
      simp only [mapAttr, createAttribute]
      rfl
    rw [hca]
    rfl

/-- C5 (amended): for every record without duplicate keys on which the
index builder terminates without entering its re-encoding branch (the
getPropertyPaths call returns an index), every path present in the index
resolves successfully — not against createAttribute of the record itself,
whose only key is M, but against the M contents of the encoded record,
the item shape the resolver expects. -/
theorem C5_roundTrip (entries idx : List (String × JVal)) (tokens : List String)
    (m : JVal)
    (hnd : noDups (.jobj entries) = true)
    (hidx : getPropertyPaths (.jobj entries) = some idx)
    (hin : pathIn idx tokens = true)
    (hm : getPropJ (createAttribute (.jobj entries)) "M" = some m) :
    ∃ a, getAttributeAtPath m (.jarr (tokens.map .jstr)) = Except.ok (some a) := by
  cases entries with
  | nil =>
    rw [createAttribute_jobj_nil] at hm
    simp [nullAttr, getPropJ, findVal] at hm
  | cons kv entries2 =>
    have hl : (kv :: entries2) ≠ [] := by simp
    rw [createAttribute_jobj_ne _ hl] at hm
    simp only [getPropJ, findVal, if_pos] at hm
    have hmm : m = .jobj (mapAttr (kv :: entries2)) := by
      cases hm
      rfl
    subst hmm
    cases tokens with
    | nil =>
      rw [pathIn] at hin
      cases hin
    | cons t rest =>
      have hgpp : gppEntries (kv :: entries2) = some idx := by
        simpa [getPropertyPaths] using hidx
      have hsw := pathIn_imp_stepsWalk hin
      rw [pathIn] at hin
      cases hf : findVal t idx with
      | none =>
        rw [hf] at hin
        cases hin
      | some w =>
        cases w with
        | jstr s => rw [hf] at hin; cases hin
        | jnum s => rw [hf] at hin; cases hin
        | jbool b => rw [hf] at hin; cases hin
        | jnull => rw [hf] at hin; cases hin
        | jobj l2 => rw [hf] at hin; cases hin
        | jarr S =>
          obtain ⟨v, hfv, hpv⟩ := gppEntries_inv hgpp hf
          have hown : jsHasOwn (.jobj (mapAttr (kv :: entries2))) t = true := by
            simp [jsHasOwn, findVal_mapAttr, hfv]
          have hpaF : paF (.jobj (kv :: entries2)) =
              some (idx.map (fun kvx => JVal.jobj [kvx])) := by
            simp only [paF]
            rw [paFObj_eq_gpp, hgpp]
            rfl
          simp only [getAttributeAtPath, toLocalPath_strings, isNullJ, isObjectJ,
            Option.isSome_some, Bool.and_true, Bool.and_self, hown, Bool.not_true,
            Bool.false_or, Bool.or_self, Bool.false_eq_true, if_false,
            Option.getD_some]
          exact gapWalk (t :: rest) (.jobj (kv :: entries2)) _ _ _ hpaF hsw hnd
            (Or.inr rfl)

/-- C5 witness: the nested record a.b = "x" resolves its indexed path
a.b against the M contents of its encoding. -/
theorem C5_witness :
    ∃ a, getAttributeAtPath
      (.jobj [("a", .jobj [("M", .jobj [("b", .jobj [("S", .jstr "x")])])])])
      (.jarr [.jstr "a", .jstr "b"]) = Except.ok (some a) := by
  have hnd : noDups (.jobj [("a", JVal.jobj [("b", JVal.jstr "x")])]) = true := by
    simp [noDups, noDupsEntries, noDupsList]
  have hidx : getPropertyPaths (.jobj [("a", JVal.jobj [("b", JVal.jstr "x")])]) =
      some [("a", .jarr [.jobj [("b", .jarr [])]])] := by
    simp [getPropertyPaths, gppEntries, paF, paFObj]
  have hin : pathIn [("a", JVal.jarr [.jobj [("b", .jarr [])]])] ["a", "b"] = true := by
    simp [pathIn, findVal, stepsWalk]
  have hm : getPropJ (createAttribute (.jobj [("a", JVal.jobj [("b", JVal.jstr "x")])]))
      "M" = some (.jobj [("a", .jobj [("M", .jobj [("b", .jobj [("S", .jstr "x")])])])]) := by
    rw [createAttribute_jobj_ne _ (by simp)]
    simp only [getPropJ, findVal, mapAttr, createAttribute, object2Map]
    rfl
  exact C5_roundTrip [("a", .jobj [("b", .jstr "x")])]
    [("a", .jarr [.jobj [("b", .jarr [])]])] ["a", "b"] _ hnd hidx hin hm
